import Mathlib

/-!
Verification of the audio-pipeline core of `tui_music_player`:
`src/eq.rs` (3-band peaking equalizer), `src/visualizer.rs` (capture tap,
ring buffer, background spectrum analyzer) and `src/player.rs`
(orchestration).

Modelling conventions:
* Rust `f32` / `f64` arithmetic is modelled by exact rational arithmetic
  over `ℚ`; every float value is a rational, and the constants involved
  (`0.01`, `100.0`, `0.2`, `0.8`, `0.55`, `20.0`, `55.0`) are exactly
  representable rationals.
* Atomics (`AtomicI32`, `AtomicU16`) are modelled as plain fields of a
  state record; the claims under study are sequential properties of the
  involved operations (the spec requires nothing beyond eventual
  visibility for the cross-thread parts).
* `Mutex`-guarded data is modelled as plain state. The `lock()` /
  `try_lock()` distinction only matters under contention or poisoning,
  where the code skips the operation; the claims quantify over the
  successful operations, so we model the successful acquisitions.
* The fallible external constructor `biquad::Coefficients::from_params`
  (trigonometric float computation in the `biquad` crate, outside this
  repository) is modelled as an abstract derivation oracle of type
  `MkPeaking := ℚ → ℚ → ℚ → Option Coefficients`, universally quantified
  in the theorems about `eq.rs`.
* The FFT itself (`rustfft`, external) is not modelled: the analyzer
  claims under study only depend on per-bar post-processing, which the
  model takes as a function of the per-bar dB value (arbitrary for C4,
  the exact silence value `20·log10(1e-10) = -200` for C9/C10).
-/

namespace Tui

/-! ### Definitions: `src/eq.rs` gain store -/

/-- Rust `const MIN_CENTI_DB: i32 = -1200;` -/
def MIN_CENTI_DB : ℤ := -1200

/-- Rust `const MAX_CENTI_DB: i32 = 1200;` -/
def MAX_CENTI_DB : ℤ := 1200

/-- Rust `const BASS_FREQ: f32 = 120.0;` -/
def BASS_FREQ : ℚ := 120

/-- Rust `const MID_FREQ: f32 = 1000.0;` -/
def MID_FREQ : ℚ := 1000

/-- Rust `const TREBLE_FREQ: f32 = 8000.0;` -/
def TREBLE_FREQ : ℚ := 8000

/-- Rust `const COEF_UPDATE_INTERVAL: usize = 256;` -/
def COEF_UPDATE_INTERVAL : ℕ := 256

/-- Rust `f32::clamp(lo, hi)` for `lo ≤ hi` (NaN-free inputs):
`min (max x lo) hi`, modelled over `ℚ`. -/
def clampQ (x lo hi : ℚ) : ℚ := min (max x lo) hi

/-- Rust `i32::clamp(lo, hi)`. -/
def clampZ (x lo hi : ℤ) : ℤ := min (max x lo) hi

/-- Rust `f32::round`: round half away from zero, modelled over `ℚ`. -/
def roundAway (q : ℚ) : ℤ := if 0 ≤ q then ⌊q + 1 / 2⌋ else ⌈q - 1 / 2⌉

/-- The three equalizer bands (Bass, Mid, Treble). -/
inductive Band
  | bass
  | mid
  | treble
deriving DecidableEq

/-- Rust `struct EqGains { bass: AtomicI32, mid: AtomicI32, treble:
AtomicI32 }`: the per-band gains in centi-dB. -/
structure EqGains where
  bass : ℤ
  mid : ℤ
  treble : ℤ
deriving DecidableEq

/-- Rust `EqGains::default` / `EqGains::new`: all gains zero. -/
def EqGains.new : EqGains := ⟨0, 0, 0⟩

/-- Shared body of `set_bass_db` / `set_mid_db` / `set_treble_db`:
`let c = (db.clamp(-12.0, 12.0) * 100.0).round() as i32;` followed by
`store(c.clamp(MIN_CENTI_DB, MAX_CENTI_DB))`. -/
def setCenti (db : ℚ) : ℤ :=
  let c := roundAway (clampQ db (-12) 12 * 100)
  clampZ c MIN_CENTI_DB MAX_CENTI_DB

/-- Rust `EqGains::set_bass_db`. -/
def EqGains.set_bass_db (g : EqGains) (db : ℚ) : EqGains :=
  { g with bass := setCenti db }

/-- Rust `EqGains::set_mid_db`. -/
def EqGains.set_mid_db (g : EqGains) (db : ℚ) : EqGains :=
  { g with mid := setCenti db }

/-- Rust `EqGains::set_treble_db`. -/
def EqGains.set_treble_db (g : EqGains) (db : ℚ) : EqGains :=
  { g with treble := setCenti db }

/-- Rust `EqGains::bass_db`: `self.bass.load(..) as f32 * 0.01`. -/
def EqGains.bass_db (g : EqGains) : ℚ := (g.bass : ℚ) * (1 / 100)

/-- Rust `EqGains::mid_db`. -/
def EqGains.mid_db (g : EqGains) : ℚ := (g.mid : ℚ) * (1 / 100)

/-- Rust `EqGains::treble_db`. -/
def EqGains.treble_db (g : EqGains) : ℚ := (g.treble : ℚ) * (1 / 100)

/-- Band-indexed setter (dispatch over the three source setters). -/
def EqGains.set_band_db (g : EqGains) (b : Band) (db : ℚ) : EqGains :=
  match b with
  | .bass => g.set_bass_db db
  | .mid => g.set_mid_db db
  | .treble => g.set_treble_db db

/-- Band-indexed getter (dispatch over the three source getters). -/
def EqGains.band_db (g : EqGains) (b : Band) : ℚ :=
  match b with
  | .bass => g.bass_db
  | .mid => g.mid_db
  | .treble => g.treble_db

/-- The stored centi-dB value of a band. -/
def EqGains.centi (g : EqGains) (b : Band) : ℤ :=
  match b with
  | .bass => g.bass
  | .mid => g.mid
  | .treble => g.treble

/-! ### Definitions: `src/eq.rs` filter chain (`EqSource`)

The biquad filter type is the external `biquad` crate's
`DirectForm1<f32>`: a coefficient set and four delay registers, with
`run` computing `b0·x + b1·x1 + b2·x2 − a1·y1 − a2·y2` and shifting the
registers. -/

/-- Field layout of `biquad::Coefficients<f32>`. -/
structure Coefficients where
  a1 : ℚ
  a2 : ℚ
  b0 : ℚ
  b1 : ℚ
  b2 : ℚ
deriving DecidableEq

/-- Field layout of `biquad::DirectForm1<f32>`. -/
structure DirectForm1 where
  coeffs : Coefficients
  x1 : ℚ
  x2 : ℚ
  y1 : ℚ
  y2 : ℚ
deriving DecidableEq

/-- `biquad`'s `DirectForm1::run`: direct form 1 transfer with register
shift; returns the output sample and the updated filter. -/
def DirectForm1.run (f : DirectForm1) (input : ℚ) : ℚ × DirectForm1 :=
  let out := f.coeffs.b0 * input + f.coeffs.b1 * f.x1 + f.coeffs.b2 * f.x2
    - f.coeffs.a1 * f.y1 - f.coeffs.a2 * f.y2
  (out, { f with x2 := f.x1, x1 := input, y2 := f.y1, y1 := out })

/-- `biquad`'s `DirectForm1::update_coefficients`: replaces the
coefficients, keeping the delay registers. -/
def DirectForm1.update_coefficients (f : DirectForm1) (c : Coefficients) :
    DirectForm1 :=
  { f with coeffs := c }

/-- Type of the abstract coefficient-derivation oracle modelling
`make_peaking(sr, freq, gain_db) = Coefficients::from_params(
Type::PeakingEQ(gain_db), sr.hz(), freq.hz(), Q).ok()`: the `biquad`
crate's trigonometric computation is external, so theorems quantify over
this function.  Arguments: sample rate, center frequency, gain in dB. -/
def MkPeaking : Type := ℚ → ℚ → ℚ → Option Coefficients

/-- `fn update_coeffs(sr, b, m, t, bass, mid, treble)`: for each band,
`if let Some(c) = make_peaking(sr, FREQ, g as f32 * 0.01)
{ band.update_coefficients(c); }` — a failed derivation leaves that
band's filter untouched. -/
def update_coeffs (mk : MkPeaking) (sr : ℚ) (b m t : ℤ)
    (bass mid treble : DirectForm1) :
    DirectForm1 × DirectForm1 × DirectForm1 :=
  (match mk sr BASS_FREQ ((b : ℚ) * (1 / 100)) with
    | some c => bass.update_coefficients c
    | none => bass,
   match mk sr MID_FREQ ((m : ℚ) * (1 / 100)) with
    | some c => mid.update_coefficients c
    | none => mid,
   match mk sr TREBLE_FREQ ((t : ℚ) * (1 / 100)) with
    | some c => treble.update_coefficients c
    | none => treble)

/-- State of `struct EqSource` (without the wrapped inner source, which
is modelled as the per-call input of `EqSource.next`).
`recompute_count` is the spec's "external recomputation counter or
equivalent instrumentation": it counts the `update_coeffs` invocations
performed by `maybe_update` and is not itself a field of the Rust
struct. -/
structure EqSource where
  bass : DirectForm1
  mid : DirectForm1
  treble : DirectForm1
  sample_rate : ℚ
  last_gains : ℤ × ℤ × ℤ
  n : ℕ
  recompute_count : ℕ
deriving DecidableEq

/-- Rust `EqSource::maybe_update`.  `cur` is the gain triple the atomic
load `self.gains.load_centi()` would return at this step (the currently
stored gains). -/
def EqSource.maybe_update (mk : MkPeaking) (s : EqSource)
    (cur : ℤ × ℤ × ℤ) : EqSource :=
  let s1 := { s with n := s.n + 1 }
  if s1.n < COEF_UPDATE_INTERVAL then s1
  else
    let s2 := { s1 with n := 0 }
    if cur = s2.last_gains then s2
    else
      let c := update_coeffs mk s2.sample_rate cur.1 cur.2.1 cur.2.2
        s2.bass s2.mid s2.treble
      { s2 with
        last_gains := cur
        bass := c.1
        mid := c.2.1
        treble := c.2.2
        recompute_count := s2.recompute_count + 1 }

/-- Rust `<EqSource as Iterator>::next`: `let s = self.inner.next()?;
self.maybe_update(); Some(self.treble.run(self.mid.run(self.bass.run(s))))`.
`inner` is the sample the wrapped source yields (`none` when
exhausted), `cur` as in `maybe_update`. -/
def EqSource.next (mk : MkPeaking) (s : EqSource) (inner : Option ℚ)
    (cur : ℤ × ℤ × ℤ) : Option (ℚ × EqSource) :=
  match inner with
  | none => none
  | some v =>
    let s1 := s.maybe_update mk cur
    let r1 := s1.bass.run v
    let r2 := s1.mid.run r1.1
    let r3 := s1.treble.run r2.1
    some (r3.1, { s1 with bass := r1.2, mid := r2.2, treble := r3.2 })

/-- Iterated `maybe_update` over a list of per-step observed gain
triples (one `next` call each). -/
def EqSource.steps (mk : MkPeaking) (s : EqSource)
    (curs : List (ℤ × ℤ × ℤ)) : EqSource :=
  curs.foldl (fun st c => st.maybe_update mk c) s

/-- Neutral pass-through coefficient set (`b0 = 1`, all else `0`), used
to build concrete states for instantiating the `EqSource` theorems. -/
def idCoeffs : Coefficients := ⟨0, 0, 1, 0, 0⟩

/-- A concrete filter with neutral coefficients and zeroed registers. -/
def df0 : DirectForm1 := ⟨idCoeffs, 0, 0, 0, 0⟩

/-- Degenerate derivation oracle: every parameter set fails (models
`from_params` returning `Err` everywhere). -/
def mkFail : MkPeaking := fun _ _ _ => none

/-- Derivation oracle that fails exactly for the bass center frequency
and succeeds (with neutral coefficients) for the other bands. -/
def mkBassFail : MkPeaking :=
  fun _ freq _ => if freq = BASS_FREQ then none else some idCoeffs

/-- A concrete `EqSource` state with sample counter `k`: neutral filters,
44.1 kHz, last-used gains `(0, 0, 0)`, no recomputations yet. -/
def eqStateAt (k : ℕ) : EqSource := ⟨df0, df0, df0, 44100, (0, 0, 0), k, 0⟩

/-! ### Definitions: `src/visualizer.rs` capture tap and ring buffer -/

/-- Rust `const FFT_SIZE: usize = 2048;` -/
def FFT_SIZE : ℕ := 2048

/-- Rust `pub const NUM_BARS: usize = 32;` -/
def NUM_BARS : ℕ := 32

/-- Rust `const BUFFER_CAP: usize = FFT_SIZE * 4;` -/
def BUFFER_CAP : ℕ := FFT_SIZE * 4

/-- Rust `const DECAY: f64 = 0.55;` -/
def DECAY : ℚ := 0.55

/-- Buffer mutation of `VisualizerSource::next` on a successful
`try_lock`: `buf.push_back(sample); if buf.len() > BUFFER_CAP
{ let excess = buf.len() - BUFFER_CAP; buf.drain(..excess); }`. -/
def pushSample (buf : List ℚ) (s : ℚ) : List ℚ :=
  let b := buf ++ [s]
  if BUFFER_CAP < b.length then b.drop (b.length - BUFFER_CAP) else b

/-- Buffer contents after pushing the samples `xs`, in order, into an
initially empty buffer. -/
def pushAll (xs : List ℚ) : List ℚ := xs.foldl pushSample []

/-- State of `VisualizerSource` visible to the claims: the shared sample
buffer handle (the wrapped inner source is opaque). -/
structure VisualizerSource where
  buffer : List ℚ

/-- Rust `<VisualizerSource as Source>::try_seek`: clears the shared
buffer (`buf.clear()`), then delegates to the inner source. -/
def VisualizerSource.try_seek (v : VisualizerSource) : VisualizerSource :=
  { v with buffer := [] }

/-! ### Definitions: `src/visualizer.rs` spectrum analyzer -/

/-- Shared state of `SpectrumAnalyzer`: sample buffer, published
spectrum, channel count.  The smoothing history `prev` is deliberately
not in this structure: in the source it is a local variable of the
`fft_loop` thread, unreachable from `SpectrumAnalyzer`'s methods. -/
structure AnalyzerShared where
  sample_buffer : List ℚ
  spectrum : List ℚ
  channels : ℕ

/-- Rust `SpectrumAnalyzer::new` stores `AtomicU16::new(2)`: the channel
count in effect before any `set_channels` call. -/
def initialChannels : ℕ := 2

/-- Rust `SpectrumAnalyzer::clear`: empties the sample buffer and zeroes
every published spectrum entry.  (It cannot touch the loop-local
smoothing history.) -/
def SpectrumAnalyzer.clear (a : AnalyzerShared) : AnalyzerShared :=
  { a with
    sample_buffer := []
    spectrum := a.spectrum.map (fun _ => 0) }

/-- Rust `let channels = ch.load(Ordering::Relaxed).max(1) as usize;`
in `fft_loop`. -/
def effChannels (ch : ℕ) : ℕ := max ch 1

/-- Sample grab of one `fft_loop` iteration: with `needed = FFT_SIZE *
channels`, skip the iteration (`none`) when the buffer holds fewer than
`needed` samples, else take the most recent `needed` samples
(`guard.range(start..)` with `start = len - needed`). -/
def grabRaw (buffer : List ℚ) (channels : ℕ) : Option (List ℚ) :=
  let needed := FFT_SIZE * channels
  if buffer.length < needed then none
  else some (buffer.drop (buffer.length - needed))

/-- Rust `slice::chunks(n)` for `n ≥ 1`: successive chunks of `n`
elements, the last possibly shorter.  (`chunks(0)` panics in Rust and is
unreachable here because `fft_loop` passes `channels.max(1)`; the model
returns `[l]` there.) -/
def chunksOf (n : ℕ) (l : List ℚ) : List (List ℚ) :=
  if h1 : l = [] then []
  else if h2 : n = 0 then [l]
  else l.take n :: chunksOf n (l.drop n)
termination_by l.length
decreasing_by
  simp only [List.length_drop]
  have : 0 < l.length := List.length_pos.mpr h1
  omega

/-- Channel downmix of one iteration: `raw.chunks(channels).map(|c|
c.iter().sum::<f32>() / c.len() as f32)`. -/
def monoMix (channels : ℕ) (raw : List ℚ) : List ℚ :=
  (chunksOf channels raw).map (fun c => c.sum / (c.length : ℚ))

/-- Exact-real model of the bucket edge `(half as f64).powf(k as f64 /
NUM_BARS as f64) as usize` of `fft_loop` for `half = 1024`, `NUM_BARS =
32`: `⌊1024^(k/32)⌋ = ⌊2^(5k/16)⌋`, characterised as the greatest
`e ≤ 1024` with `e¹⁶ ≤ 2^(5k)`.  For `0 ≤ k ≤ 32` the real value
`2^(5k/16)` is either an exact power of two (`k ∈ {0, 16, 32}`) or
irrational at distance `> 0.01` from every integer, so the `f64`
computation (error ≪ 0.01) truncates to the same integer. -/
def powEdge (k : ℕ) : ℕ :=
  Nat.findGreatest (fun e => e ^ 16 ≤ 2 ^ (5 * k)) 1024

/-- Clamped lower bucket edge of bar `i`:
`let lo = lo.max(1).min(half - 1);` with `half = 1024`. -/
def barLo (i : ℕ) : ℕ := min (max (powEdge i) 1) 1023

/-- Clamped upper bucket edge of bar `i`:
`let hi = hi.max(lo + 1).min(half);` with `half = 1024`. -/
def barHi (i : ℕ) : ℕ := min (max (powEdge (i + 1)) (barLo i + 1)) 1024

/-- Per-bar normalisation of `fft_loop`:
`((db + 20.0) / 55.0 * 100.0).clamp(0.0, 100.0)` applied to the dB value
`db = 20·log10(max(avg, 1e-10))` of the bar. -/
def normalizeDb (db : ℚ) : ℚ := clampQ ((db + 20) / 55 * 100) 0 100

/-- Per-bar smoothing step of `fft_loop`, from the previous bar value
`p` and the bar's new dB value: `if normalized > prev[i] { prev[i] * 0.2
+ normalized * 0.8 } else { prev[i] * DECAY + normalized * (1.0 - DECAY)
}`. -/
def barStep (p db : ℚ) : ℚ :=
  let normalized := normalizeDb db
  if p < normalized then p * 0.2 + normalized * 0.8
  else p * DECAY + normalized * (1 - DECAY)

/-- Exact dB value of a silent bar: every magnitude is `0`, so
`avg = 0` and `db = 20.0 * (0.0f32.max(1e-10)).log10() =
20·log10(10⁻¹⁰) = -200`, which the model carries exactly. -/
def dbSilence : ℚ := 20 * (-10)

/-- One published snapshot of `fft_loop`: bar `i` of the new spectrum is
`barStep prev[i] db[i]`; the result replaces both the shared spectrum
and the loop-local `prev`. -/
def publishStep (prev dbs : List ℚ) : List ℚ := List.zipWith barStep prev dbs

/-! ### Theorems -/

lemma clampQ_mem (x lo hi : ℚ) (h : lo ≤ hi) :
    lo ≤ clampQ x lo hi ∧ clampQ x lo hi ≤ hi := by
  constructor
  · exact le_min (le_max_right x lo) h
  · exact min_le_right _ _

lemma roundAway_mem (q : ℚ) (h1 : -1200 ≤ q) (h2 : q ≤ 1200) :
    -1200 ≤ roundAway q ∧ roundAway q ≤ 1200 := by
  unfold roundAway
  split
  case isTrue h =>
    constructor
    · have : (0 : ℤ) ≤ ⌊q + 1 / 2⌋ := by
        rw [Int.le_floor]
        push_cast
        linarith
      omega
    · have : (⌊q + 1 / 2⌋ : ℚ) ≤ q + 1 / 2 := Int.floor_le _
      have h3 : (⌊q + 1 / 2⌋ : ℚ) ≤ 1200 + 1 / 2 := by linarith
      by_contra hc
      push_neg at hc
      have : (1201 : ℚ) ≤ (⌊q + 1 / 2⌋ : ℚ) := by exact_mod_cast hc
      linarith
  case isFalse h =>
    push_neg at h
    constructor
    · by_contra hc
      push_neg at hc
      have h4 : ⌈q - 1 / 2⌉ ≤ -1201 := by omega
      rw [Int.ceil_le] at h4
      push_cast at h4
      linarith
    · have : ⌈q - 1 / 2⌉ ≤ 0 := by
        rw [Int.ceil_le]
        push_cast
        linarith
      omega

lemma setCenti_mem (db : ℚ) :
    MIN_CENTI_DB ≤ setCenti db ∧ setCenti db ≤ MAX_CENTI_DB := by
  unfold setCenti clampZ MIN_CENTI_DB MAX_CENTI_DB
  refine ⟨le_min (le_max_right _ _) (by norm_num), min_le_right _ _⟩

lemma setCenti_eq (db : ℚ) :
    setCenti db = roundAway (clampQ db (-12) 12 * 100) := by
  have hc := clampQ_mem db (-12) 12 (by norm_num)
  have hr := roundAway_mem (clampQ db (-12) 12 * 100)
    (by nlinarith [hc.1, hc.2]) (by nlinarith [hc.1, hc.2])
  simp only [setCenti, clampZ, MIN_CENTI_DB, MAX_CENTI_DB]
  rw [max_eq_left hr.1, min_eq_left hr.2]

lemma set_band_get (g : EqGains) (b : Band) (x : ℚ) :
    (g.set_band_db b x).band_db b = (setCenti x : ℚ) * (1 / 100)
    ∧ (g.set_band_db b x).centi b = setCenti x := by
  cases b <;>
    exact ⟨rfl, rfl⟩

/-- C2: for every band and requested gain `x`, reading the band right
after `set_band_gain(band, x)` returns `clamp(x, -12, 12)` rounded to
0.01 dB resolution (i.e. `round(clamp(x,-12,12)·100)/100`), and the
stored centi-dB integer lies in `[-1200, 1200]`. -/
theorem C2_band_gain_roundtrip (g : EqGains) (b : Band) (x : ℚ) :
    (g.set_band_db b x).band_db b
      = (roundAway (clampQ x (-12) 12 * 100) : ℚ) / 100
    ∧ MIN_CENTI_DB ≤ (g.set_band_db b x).centi b
    ∧ (g.set_band_db b x).centi b ≤ MAX_CENTI_DB := by
  have hm := setCenti_mem x
  obtain ⟨h1, h2⟩ := set_band_get g b x
  rw [h1, h2, setCenti_eq]
  rw [setCenti_eq] at hm
  exact ⟨by ring, hm.1, hm.2⟩

lemma pushSample_eq (buf : List ℚ) (s : ℚ) :
    pushSample buf s = (buf ++ [s]).drop ((buf.length + 1) - BUFFER_CAP) := by
  simp only [pushSample, List.length_append, List.length_cons,
    List.length_nil]
  split
  case isTrue h => rfl
  case isFalse h =>
    have : buf.length + 1 - BUFFER_CAP = 0 := by omega
    rw [this, List.drop_zero]

lemma foldl_pushSample (xs : List ℚ) :
    ∀ buf : List ℚ, buf.length ≤ BUFFER_CAP →
      xs.foldl pushSample buf
        = (buf ++ xs).drop (buf.length + xs.length - BUFFER_CAP) := by
  induction xs with
  | nil =>
    intro buf h
    simp [Nat.sub_eq_zero_of_le h]
  | cons x xs ih =>
    intro buf h
    have hd : (buf.length + 1) - BUFFER_CAP ≤ (buf ++ [x]).length := by
      simp only [List.length_append, List.length_cons, List.length_nil]
      omega
    have hnb : (pushSample buf x).length ≤ BUFFER_CAP := by
      rw [pushSample_eq]
      simp only [List.length_drop, List.length_append, List.length_cons,
        List.length_nil]
      omega
    rw [List.foldl_cons, ih (pushSample buf x) hnb, pushSample_eq]
    rw [← List.drop_append_of_le_length hd, List.drop_drop]
    rw [List.append_cons buf x xs]
    refine congrArg (fun k => List.drop k (buf ++ [x] ++ xs)) ?_
    simp only [List.length_drop, List.length_append, List.length_cons,
      List.length_nil]
    omega

/-- C3: for every sequence of samples successfully pushed into an
initially empty shared buffer, the buffer length never exceeds the fixed
capacity `BUFFER_CAP = 8192 = 4 × 2048`, and the buffer holds exactly
the most recently pushed samples up to capacity, in push order (oldest
evicted first): it equals the suffix `xs.drop (xs.length - 8192)`.
Every prefix of a push sequence is itself a push sequence, so this
covers the state after every intermediate push. -/
theorem C3_ring_buffer_bounded_suffix (xs : List ℚ) :
    pushAll xs = xs.drop (xs.length - BUFFER_CAP)
    ∧ (pushAll xs).length ≤ BUFFER_CAP
    ∧ BUFFER_CAP = 8192 := by
  have h := foldl_pushSample xs [] (by simp)
  simp only [List.nil_append, List.length_nil, Nat.zero_add] at h
  refine ⟨h, ?_, by norm_num [BUFFER_CAP, FFT_SIZE]⟩
  rw [pushAll, h]
  simp only [List.length_drop]
  omega

lemma normalizeDb_mem (db : ℚ) :
    0 ≤ normalizeDb db ∧ normalizeDb db ≤ 100 :=
  clampQ_mem _ 0 100 (by norm_num)

lemma barStep_mem (p db : ℚ) (h0 : 0 ≤ p) (h1 : p ≤ 100) :
    0 ≤ barStep p db ∧ barStep p db ≤ 100 := by
  obtain ⟨hn0, hn1⟩ := normalizeDb_mem db
  simp only [barStep, DECAY]
  split <;> constructor <;> nlinarith

lemma foldl_barStep_mem (dbs : List ℚ) :
    ∀ p : ℚ, 0 ≤ p → p ≤ 100 →
      0 ≤ dbs.foldl barStep p ∧ dbs.foldl barStep p ≤ 100 := by
  induction dbs with
  | nil =>
    intro p h0 h1
    exact ⟨h0, h1⟩
  | cons d ds ih =>
    intro p h0 h1
    obtain ⟨m0, m1⟩ := barStep_mem p d h0 h1
    simpa using ih _ m0 m1

/-- C4: every element of every published spectrum snapshot lies in
`[0, 100]`.  Bars are updated independently; a bar starts at `0` (the
initial all-zero snapshot) and each iteration maps it through `barStep`,
whose input normalisation is clamped into `[0, 100]` and whose two
blends keep `[0, 100]` stable — so after any sequence of iterations
(arbitrary per-iteration dB values `dbs`) the bar value is in
`[0, 100]`. -/
theorem C4_snapshot_in_range (dbs : List ℚ) :
    (∀ db : ℚ, 0 ≤ normalizeDb db ∧ normalizeDb db ≤ 100)
    ∧ 0 ≤ dbs.foldl barStep 0 ∧ dbs.foldl barStep 0 ≤ 100 :=
  ⟨fun db => normalizeDb_mem db,
   foldl_barStep_mem dbs 0 (le_refl 0) (by norm_num)⟩

lemma normalizeDb_silence : normalizeDb dbSilence = 0 := by
  have : ((dbSilence + 20) / 55 * 100 : ℚ) = -3600 / 11 := by
    norm_num [dbSilence]
  rw [normalizeDb, this, clampQ]
  norm_num

lemma barStep_silence (p : ℚ) (h : 0 ≤ p) :
    barStep p dbSilence = DECAY * p := by
  simp only [barStep, normalizeDb_silence]
  rw [if_neg (by linarith)]
  rw [DECAY]
  ring

/-- C9: under silent input (a full window of zero samples, whose exact
dB value is `dbSilence = -200` and whose normalised value is `0`), each
analyzer iteration takes every bar from `p ≥ 0` to `DECAY · p = 0.55·p`:
the value never increases and never becomes negative. -/
theorem C9_silence_monotone_decay (p : ℚ) (h : 0 ≤ p) :
    barStep p dbSilence = DECAY * p
    ∧ barStep p dbSilence ≤ p
    ∧ 0 ≤ barStep p dbSilence := by
  have hb := barStep_silence p h
  refine ⟨hb, ?_, ?_⟩ <;> rw [hb, DECAY] <;> nlinarith

/-- C9 witness: the decay step at the concrete bar value `40`. -/
theorem C9_witness :
    barStep 40 dbSilence = DECAY * 40
    ∧ barStep 40 dbSilence ≤ 40
    ∧ 0 ≤ barStep 40 dbSilence :=
  C9_silence_monotone_decay 40 (by norm_num)

lemma grabRaw_nil (c : ℕ) : grabRaw [] (effChannels c) = none := by
  have hpos : 0 < FFT_SIZE * effChannels c :=
    Nat.mul_pos (by norm_num [FFT_SIZE])
      (lt_of_lt_of_le one_pos (le_max_right c 1))
  simp only [grabRaw, List.length_nil]
  rw [if_pos hpos]

/-- C7: a seek clears the shared sample buffer synchronously.  After
`VisualizerSource::try_seek` the buffer is empty, after the restart path
`Player::play_file_from` (which calls `SpectrumAnalyzer::clear`) the
buffer is empty, and an analyzer read immediately following either
operation grabs no samples at all (so in particular no pre-seek
samples). -/
theorem C7_seek_clears_buffer (v : VisualizerSource) (a : AnalyzerShared)
    (c : ℕ) :
    (v.try_seek).buffer = []
    ∧ (SpectrumAnalyzer.clear a).sample_buffer = []
    ∧ grabRaw (v.try_seek).buffer (effChannels c) = none
    ∧ grabRaw (SpectrumAnalyzer.clear a).sample_buffer (effChannels c)
        = none :=
  ⟨rfl, rfl, grabRaw_nil c, grabRaw_nil c⟩

lemma chunksOf_one (l : List ℚ) : chunksOf 1 l = l.map (fun x => [x]) := by
  induction l with
  | nil => rw [chunksOf]; simp
  | cons x xs ih =>
    rw [chunksOf]
    simp [ih]

lemma monoMix_one (raw : List ℚ) : monoMix 1 raw = raw := by
  rw [monoMix, chunksOf_one, List.map_map]
  have h : ((fun c : List ℚ => c.sum / (c.length : ℚ)) ∘ fun x => [x])
      = id := by
    funext x
    simp
  rw [h, List.map_id]

/-- C8 (amended): a channel count stored as zero is treated as 1 channel
by `fft_loop`: the required sample count is `FFT_SIZE·1 = 2048` and the
per-frame averaging over 1-element frames returns the samples unchanged.
(The unset case is different — see the counterexample: the constructor
initialises the count to 2, so an unset count is treated as 2.) -/
theorem C8_zero_channels_treated_as_one (buffer raw : List ℚ) :
    effChannels 0 = 1
    ∧ FFT_SIZE * effChannels 0 = FFT_SIZE
    ∧ grabRaw buffer (effChannels 0) = grabRaw buffer 1
    ∧ monoMix (effChannels 0) raw = raw := by
  have h : effChannels 0 = 1 := by decide
  refine ⟨h, by rw [h, Nat.mul_one], by rw [h], by rw [h]; exact monoMix_one raw⟩

/-- C8 counterexample: with the channel count unset (no `set_channels`
call yet), the analyzer's stored count is its construction value
`initialChannels = 2`, so `fft_loop` treats the stream as 2 channels,
not 1: it requires `FFT_SIZE·2 = 4096` samples, refuting the claim that
an unset channel count is treated as 1. -/
theorem C8_counterexample :
    effChannels initialChannels = 2
    ∧ effChannels initialChannels ≠ 1
    ∧ FFT_SIZE * effChannels initialChannels ≠ FFT_SIZE := by
  decide

/-- C10: `SpectrumAnalyzer::clear` zeroes the published snapshot and
empties the sample buffer but leaves the loop-local smoothing history
`prev` untouched (it is not reachable from the method), so the first
snapshot published after a clear blends the pre-clear bar values with
the new ones: with silent post-clear input, bar `i` is published as
`DECAY · prev[i] = 0.55·prev[i]`, which is nonzero whenever the
pre-clear value was. -/
theorem C10_clear_keeps_smoothing_history (a : AnalyzerShared)
    (prev : List ℚ) (i : ℕ) (hi : i < prev.length) (hpos : 0 < prev[i]) :
    (SpectrumAnalyzer.clear a).spectrum = a.spectrum.map (fun _ => 0)
    ∧ (SpectrumAnalyzer.clear a).sample_buffer = []
    ∧ (publishStep prev (List.replicate prev.length dbSilence))[i]?
        = some (DECAY * prev[i])
    ∧ DECAY * prev[i] ≠ 0 := by
  refine ⟨rfl, rfl, ?_, ?_⟩
  · rw [publishStep]
    refine List.getElem?_zipWith_eq_some.mpr ⟨prev[i], dbSilence, ?_, ?_, ?_⟩
    · exact List.getElem?_eq_getElem hi
    · exact List.getElem?_replicate_of_lt hi
    · exact barStep_silence prev[i] (le_of_lt hpos)
  · have hlt : (0 : ℚ) < DECAY * prev[i] := by
      rw [DECAY]
      exact mul_pos (by norm_num) hpos
    exact (ne_of_lt hlt).symm

/-- C10 witness: clearing the analyzer state `⟨[9], [7], 2⟩` while the
loop history holds the single bar value `3`. -/
theorem C10_witness :
    (SpectrumAnalyzer.clear ⟨[9], [7], 2⟩).spectrum
        = ([7] : List ℚ).map (fun _ => 0)
    ∧ (SpectrumAnalyzer.clear ⟨[9], [7], 2⟩).sample_buffer = []
    ∧ (publishStep [3] (List.replicate ([3] : List ℚ).length dbSilence))[0]?
        = some (DECAY * ([3] : List ℚ)[0])
    ∧ DECAY * ([3] : List ℚ)[0] ≠ 0 :=
  C10_clear_keeps_smoothing_history ⟨[9], [7], 2⟩ [3] 0 (by norm_num)
    (by norm_num)

lemma maybe_update_same (mk : MkPeaking) (s : EqSource)
    (cur : ℤ × ℤ × ℤ) (h : cur = s.last_gains) :
    s.maybe_update mk cur
      = { s with n := if s.n + 1 < COEF_UPDATE_INTERVAL then s.n + 1 else 0 } := by
  simp only [EqSource.maybe_update]
  split
  case isTrue hlt => rfl
  case isFalse hge => rfl

lemma steps_same (mk : MkPeaking) (curs : List (ℤ × ℤ × ℤ)) :
    ∀ s : EqSource, (∀ c ∈ curs, c = s.last_gains) →
      (s.steps mk curs).bass = s.bass
      ∧ (s.steps mk curs).mid = s.mid
      ∧ (s.steps mk curs).treble = s.treble
      ∧ (s.steps mk curs).last_gains = s.last_gains
      ∧ (s.steps mk curs).recompute_count = s.recompute_count := by
  induction curs with
  | nil =>
    intro s h
    exact ⟨rfl, rfl, rfl, rfl, rfl⟩
  | cons c cs ih =>
    intro s h
    have hc : c = s.last_gains := h c (List.mem_cons_self c cs)
    have hstep := maybe_update_same mk s c hc
    have hlast : (s.maybe_update mk c).last_gains = s.last_gains := by
      rw [hstep]
    obtain ⟨i1, i2, i3, i4, i5⟩ := ih (s.maybe_update mk c)
      (fun x hx => by rw [hlast]; exact h x (List.mem_cons_of_mem c hx))
    simp only [EqSource.steps, List.foldl_cons] at i1 i2 i3 i4 i5 ⊢
    rw [i1, i2, i3, i4, i5, hstep]
    exact ⟨rfl, rfl, rfl, rfl, rfl⟩

/-- C5: coefficient refresh cadence of `EqSource`.  Off a 256-sample
boundary of the internal counter, `maybe_update` only increments the
counter (no recomputation, no state change).  At a boundary with the
observed gain triple equal to the last-used one, it only resets the
counter.  At a boundary with a differing triple, all three bands'
coefficients are rebuilt by `update_coeffs` from the new gains, the new
triple is remembered as last used, and the recomputation counter is
incremented.  Consequently over any run of steps — in particular two
consecutive 256-sample windows — in which the stored gains always equal
the last-used triple, the filters, the last-used triple and the
recomputation count are all unchanged. -/
theorem C5_coeff_refresh_cadence (mk : MkPeaking) (s : EqSource)
    (cur : ℤ × ℤ × ℤ) (curs : List (ℤ × ℤ × ℤ)) :
    (s.n + 1 < COEF_UPDATE_INTERVAL →
      s.maybe_update mk cur = { s with n := s.n + 1 })
    ∧ (¬ s.n + 1 < COEF_UPDATE_INTERVAL → cur = s.last_gains →
      s.maybe_update mk cur = { s with n := 0 })
    ∧ (¬ s.n + 1 < COEF_UPDATE_INTERVAL → cur ≠ s.last_gains →
      s.maybe_update mk cur = { s with
        n := 0
        last_gains := cur
        bass := (update_coeffs mk s.sample_rate cur.1 cur.2.1 cur.2.2
          s.bass s.mid s.treble).1
        mid := (update_coeffs mk s.sample_rate cur.1 cur.2.1 cur.2.2
          s.bass s.mid s.treble).2.1
        treble := (update_coeffs mk s.sample_rate cur.1 cur.2.1 cur.2.2
          s.bass s.mid s.treble).2.2
        recompute_count := s.recompute_count + 1 })
    ∧ ((∀ c ∈ curs, c = s.last_gains) →
      (s.steps mk curs).bass = s.bass
      ∧ (s.steps mk curs).mid = s.mid
      ∧ (s.steps mk curs).treble = s.treble
      ∧ (s.steps mk curs).last_gains = s.last_gains
      ∧ (s.steps mk curs).recompute_count = s.recompute_count) := by
  refine ⟨?_, ?_, ?_, fun h => steps_same mk curs s h⟩
  · intro h1
    simp only [EqSource.maybe_update]
    split
    case isTrue hlt => rfl
    case isFalse hge => exact absurd h1 hge
  · intro h1 h2
    simp only [EqSource.maybe_update]
    split
    case isTrue hlt => exact absurd hlt h1
    case isFalse hge => rfl
  · intro h1 h2
    simp only [EqSource.maybe_update]
    split
    case isTrue hlt => exact absurd hlt h1
    case isFalse hge => rfl

/-- C5 witness: concrete instantiations of all four cadence cases, at
counter values `5` (off-boundary) and `255` (boundary), with unchanged
and with changed gain triples, and over a two-step run with unchanged
gains. -/
theorem C5_witness :
    (EqSource.maybe_update mkFail (eqStateAt 5) (7, 0, 0)
      = { eqStateAt 5 with n := (eqStateAt 5).n + 1 })
    ∧ (EqSource.maybe_update mkFail (eqStateAt 255) (0, 0, 0)
      = { eqStateAt 255 with n := 0 })
    ∧ (EqSource.maybe_update mkFail (eqStateAt 255) (7, 0, 0)
      = { eqStateAt 255 with
        n := 0
        last_gains := (7, 0, 0)
        bass := (update_coeffs mkFail (eqStateAt 255).sample_rate 7 0 0
          (eqStateAt 255).bass (eqStateAt 255).mid (eqStateAt 255).treble).1
        mid := (update_coeffs mkFail (eqStateAt 255).sample_rate 7 0 0
          (eqStateAt 255).bass (eqStateAt 255).mid (eqStateAt 255).treble).2.1
        treble := (update_coeffs mkFail (eqStateAt 255).sample_rate 7 0 0
          (eqStateAt 255).bass (eqStateAt 255).mid (eqStateAt 255).treble).2.2
        recompute_count := (eqStateAt 255).recompute_count + 1 })
    ∧ ((EqSource.steps mkFail (eqStateAt 255) [(0, 0, 0), (0, 0, 0)]).bass
        = (eqStateAt 255).bass
      ∧ (EqSource.steps mkFail (eqStateAt 255) [(0, 0, 0), (0, 0, 0)]).mid
        = (eqStateAt 255).mid
      ∧ (EqSource.steps mkFail (eqStateAt 255) [(0, 0, 0), (0, 0, 0)]).treble
        = (eqStateAt 255).treble
      ∧ (EqSource.steps mkFail (eqStateAt 255) [(0, 0, 0), (0, 0, 0)]).last_gains
        = (eqStateAt 255).last_gains
      ∧ (EqSource.steps mkFail (eqStateAt 255) [(0, 0, 0), (0, 0, 0)]).recompute_count
        = (eqStateAt 255).recompute_count) :=
  ⟨(C5_coeff_refresh_cadence mkFail (eqStateAt 5) (7, 0, 0) []).1 (by decide),
   (C5_coeff_refresh_cadence mkFail (eqStateAt 255) (0, 0, 0) []).2.1
     (by decide) (by decide),
   (C5_coeff_refresh_cadence mkFail (eqStateAt 255) (7, 0, 0) []).2.2.1
     (by decide) (by decide),
   (C5_coeff_refresh_cadence mkFail (eqStateAt 255) (0, 0, 0)
     [(0, 0, 0), (0, 0, 0)]).2.2.2 (by decide)⟩

/-- C6: fail-soft coefficient refresh.  If derivation fails for the bass
band's gain, `update_coeffs` leaves the bass filter (in particular its
previously active coefficients) untouched; the other bands' updates are
applied exactly as their own derivations dictate; and per-sample
processing still produces an output sample for every input sample — no
error value is propagated and the failing band never receives invalid
coefficients.  (By the symmetry of `update_coeffs`, the same argument
applies verbatim to mid or treble failures.) -/
theorem C6_failed_derivation_fail_soft (mk : MkPeaking) (sr : ℚ)
    (b m t : ℤ) (bass mid treble : DirectForm1) (s : EqSource)
    (cur : ℤ × ℤ × ℤ) (v : ℚ)
    (hfail : mk sr BASS_FREQ ((b : ℚ) * (1 / 100)) = none) :
    (update_coeffs mk sr b m t bass mid treble).1 = bass
    ∧ (∀ c, mk sr MID_FREQ ((m : ℚ) * (1 / 100)) = some c →
        (update_coeffs mk sr b m t bass mid treble).2.1
          = mid.update_coefficients c)
    ∧ (∀ c, mk sr TREBLE_FREQ ((t : ℚ) * (1 / 100)) = some c →
        (update_coeffs mk sr b m t bass mid treble).2.2
          = treble.update_coefficients c)
    ∧ (EqSource.next mk s (some v) cur).isSome = true := by
  refine ⟨?_, ?_, ?_, rfl⟩
  · simp only [update_coeffs, hfail]
  · intro c hc
    simp only [update_coeffs, hc]
  · intro c hc
    simp only [update_coeffs, hc]

/-- C6 witness: the oracle `mkBassFail` fails exactly on the bass center
frequency; at gains `(3 dB, -1 dB, 0 dB)` the bass filter is retained,
mid and treble are updated, and `next` still yields an output sample. -/
theorem C6_witness :
    (update_coeffs mkBassFail 44100 300 (-100) 0 df0 df0 df0).1 = df0
    ∧ (∀ c, mkBassFail 44100 MID_FREQ (((-100 : ℤ) : ℚ) * (1 / 100)) = some c →
        (update_coeffs mkBassFail 44100 300 (-100) 0 df0 df0 df0).2.1
          = df0.update_coefficients c)
    ∧ (∀ c, mkBassFail 44100 TREBLE_FREQ (((0 : ℤ) : ℚ) * (1 / 100)) = some c →
        (update_coeffs mkBassFail 44100 300 (-100) 0 df0 df0 df0).2.2
          = df0.update_coefficients c)
    ∧ (EqSource.next mkBassFail (eqStateAt 0) (some (1 / 2)) (0, 0, 0)).isSome
        = true :=
  C6_failed_derivation_fail_soft mkBassFail 44100 300 (-100) 0 df0 df0 df0
    (eqStateAt 0) (0, 0, 0) (1 / 2) (by simp [mkBassFail])

set_option maxRecDepth 100000 in
/-- C1 counterexample: bar 0 and bar 1 are the same range `[1, 2)`
(both cover bin 1), so the 32 bucket ranges are neither non-overlapping
nor do they cover bin 1 exactly once.  (In fact bars 0–3 all cover
exactly bin 1, and bars 4–5 both cover exactly bin 2.) -/
theorem C1_counterexample :
    barLo 0 = 1 ∧ barHi 0 = 2 ∧ barLo 1 = 1 ∧ barHi 1 = 2 := by
  decide

lemma cover_of_chain (lo hi : ℕ → ℕ) :
    ∀ n, (∀ i, i + 1 < n → lo (i + 1) ≤ hi i) →
      ∀ b, lo 0 ≤ b → 0 < n → b < hi (n - 1) →
        ∃ i, i < n ∧ lo i ≤ b ∧ b < hi i := by
  intro n
  induction n with
  | zero =>
    intro _ b _ hpos _
    exact absurd hpos (by omega)
  | succ m ih =>
    intro chain b hlo _ hhi
    rw [Nat.add_sub_cancel] at hhi
    by_cases hcase : lo m ≤ b
    · exact ⟨m, Nat.lt_succ_self m, hcase, hhi⟩
    · push_neg at hcase
      have hm : 0 < m := by
        rcases Nat.eq_zero_or_pos m with h0 | h0
        · subst h0
          exact absurd hlo (not_le.mpr hcase)
        · exact h0
      have hchain : lo m ≤ hi (m - 1) := by
        have h2 := chain (m - 1) (by omega)
        rwa [Nat.sub_add_cancel hm] at h2
      obtain ⟨i, hi1, hi2, hi3⟩ :=
        ih (fun i hlt => chain i (by omega)) b hlo hm
          (lt_of_lt_of_le hcase hchain)
      exact ⟨i, by omega, hi2, hi3⟩

set_option maxRecDepth 100000 in
set_option maxHeartbeats 2000000 in
/-- C1 (amended): for `half = 1024`, each of the 32 bucket ranges
`[barLo i, barHi i)` covers at least one bin and lies within
`[1, 1024]`, consecutive ranges leave no gap (`barLo (i+1) ≤ barHi i`),
the first range starts at bin 1 and the last ends at bin 1024, and the
ranges jointly cover every bin `1 ≤ b < 1024` at least once.  (They are
not non-overlapping and coverage is not exactly-once: bins 1 and 2 are
each covered by several bars — see the counterexample.) -/
theorem C1_log_buckets_cover (b : ℕ) (hb1 : 1 ≤ b) (hb2 : b < 1024) :
    (∀ i < 32, 1 ≤ barLo i ∧ barLo i < barHi i ∧ barHi i ≤ 1024)
    ∧ (∀ i < 31, barLo (i + 1) ≤ barHi i)
    ∧ barLo 0 = 1 ∧ barHi 31 = 1024
    ∧ ∃ i, i < 32 ∧ barLo i ≤ b ∧ b < barHi i := by
  have hbounds : ∀ i < 32, 1 ≤ barLo i ∧ barLo i < barHi i ∧ barHi i ≤ 1024 := by
    decide
  have hchain : ∀ i < 31, barLo (i + 1) ≤ barHi i := by
    decide
  have hlo0 : barLo 0 = 1 := by decide
  have hhi31 : barHi 31 = 1024 := by decide
  refine ⟨hbounds, hchain, hlo0, hhi31, ?_⟩
  refine cover_of_chain barLo barHi 32
    (fun i hlt => hchain i (by omega)) b ?_ (by norm_num) ?_
  · rw [hlo0]
    exact hb1
  · have h31 : (32 : ℕ) - 1 = 31 := rfl
    rw [h31, hhi31]
    exact hb2

/-- C1 witness: the coverage theorem instantiated at bin 700 (which
lies in bar 30's range `[663, 824)`). -/
theorem C1_witness :
    (∀ i < 32, 1 ≤ barLo i ∧ barLo i < barHi i ∧ barHi i ≤ 1024)
    ∧ (∀ i < 31, barLo (i + 1) ≤ barHi i)
    ∧ barLo 0 = 1 ∧ barHi 31 = 1024
    ∧ ∃ i, i < 32 ∧ barLo i ≤ 700 ∧ 700 < barHi i :=
  C1_log_buckets_cover 700 (by norm_num) (by norm_num)

end Tui
